import Mathlib

/-!
Verification development for the experimental incremental HTTP/1 parser
(`new_basic_parser` and its scanner primitives).  The C++ sources are
embedded shallowly: bytes are natural numbers below 256, memory views are
lists of bytes, pointers are modelled by passing the suffix of the view
that starts at the pointer, and the parser object state is an explicit
record that every operation threads through.  Machine integers are
modelled as Nat with an explicit mod 2^64 exactly where the C code can
wrap (the hexadecimal accumulator); the decimal accumulator checks its
guard before every multiply-add, so it never wraps and is modelled
guard-first in plain Nat, exactly like the source.
-/

namespace NewBasicParser

def strNats (s : String) : List Nat := s.data.map Char.toNat

def CR : Nat := 13

def LF : Nat := 10

def SP : Nat := 32

def HTAB : Nat := 9

/-- Embedding of `new_basic_parser_base::is_pathchar`: the 256-entry table
marks every octet except the controls 0x00-0x1F, SP (0x20) and DEL (0x7F). -/
def is_pathchar (c : Nat) : Bool :=
  33 ≤ c && c ≤ 255 && c ≠ 127

/-- Embedding of `new_basic_parser_base::is_value_char`: the table is
identical to the one in `is_pathchar` (any octet except CTLs and LWS). -/
def is_value_char (c : Nat) : Bool :=
  33 ≤ c && c ≤ 255 && c ≠ 127

/-- Embedding of `new_basic_parser_base::is_text`: any octet except CTLs,
but including HTAB (index 9 of the table is 1). -/
def is_text (c : Nat) : Bool :=
  c == 9 || (32 ≤ c && c ≤ 255 && c ≠ 127)

/-- Embedding of `new_basic_parser_base::is_digit`:
`static_cast<unsigned char>(c - 48) < 10`, which for an octet is exactly
the range 48..57. -/
def is_digit (c : Nat) : Bool :=
  48 ≤ c && c ≤ 57

/-- The signed entry of the `unhex` lookup table at index `c`.  The
initializer in the source omits the separating comma at the end of each
of the eight rows labelled 112 through 224 (each is followed by a row
starting with -1, the row labelled 240 by the closing brace); the C
tokenizer therefore folds each of those eight line breaks into a
subtraction, producing the value -2 once per fold — at indices 127,
142, 157, 172, 187, 202, 217 and 232 — shortening the initializer to
248 entries and leaving only indices 248..255 zero-initialized.  This
definition reproduces the table the compiler actually builds. -/
def unhexTab (c : Nat) : Int :=
  if 48 ≤ c ∧ c ≤ 57 then (c : Int) - 48
  else if 65 ≤ c ∧ c ≤ 70 then (c : Int) - 55
  else if 97 ≤ c ∧ c ≤ 102 then (c : Int) - 87
  else if c = 127 ∨ c = 142 ∨ c = 157 ∨ c = 172 ∨ c = 187 ∨ c = 202 ∨
      c = 217 ∨ c = 232 then -2
  else if 248 ≤ c ∧ c ≤ 255 then 0
  else -1

/-- Embedding of `new_basic_parser_base::unhex`: the table entry is cast
to unsigned char (mod 256) and the call succeeds when that differs
from 255, i.e. when the entry is not -1. -/
def unhex (c : Nat) : Option Nat :=
  let t := unhexTab c
  if t = -1 then none else some (t % 256).toNat

/-- Result of running the decimal accumulator over a memory region.
`ok v` is a `true` return with accumulator `v` (the iterator stopped at a
non-digit inside the region); `fail` is a `false` return from either the
leading non-digit test or the overflow guard; `oob` means the loop
dereferenced a position past the end of the region supplied — the C code
never compares its iterator against its `last` parameter, so this is the
outcome on a region consisting entirely of digits that never trips the
guard. -/
inductive DecRes
  | ok (v : Nat)
  | fail
  | oob
deriving Repr, DecidableEq

/-- Guard of the decimal accumulator at `Unsigned = std::uint64_t`:
`(max - 10) / 10` with `max = 2^64 - 1`. -/
def decGuard : Nat := (2 ^ 64 - 1 - 10) / 10

/-- The loop of `parse_dec` after the first digit: each step first tests
the next octet for digit-ness, then checks `v > (max-10)/10` before the
multiply-add, so `10*v + d` never exceeds `2^64 - 1` and Nat arithmetic
coincides with the C `std::uint64_t` arithmetic. -/
def parse_dec_loop (v : Nat) : List Nat → DecRes
  | [] => .oob
  | c :: rest =>
    if is_digit c then
      if v > decGuard then .fail
      else parse_dec_loop (10 * v + (c - 48)) rest
    else .ok v

/-- Embedding of `new_basic_parser_base::parse_dec` at
`Unsigned = std::uint64_t`.  The argument is the memory region starting
at the iterator `it`; the `last` parameter of the C function is never
read by its body and is therefore not a parameter of the embedding. -/
def parse_dec : List Nat → DecRes
  | [] => .oob
  | c :: rest =>
    if is_digit c then parse_dec_loop (c - 48) rest else .fail

/-- The loop of `parse_hex` after the first digit.  `v` is the 64-bit
accumulator, `k` counts consumed octets.  The multiply-add is performed
mod 2^64 (the C accumulator is `std::uint64_t` and may wrap) and the
overflow test `v <= v0` compares the wrapped value with the previous
one.  Returns the accumulator and the consumed count on the `true`
return; `none` covers the `false` return and, identically, running off
the supplied region (the C loop has no bounds check). -/
def parse_hex_loop (v k : Nat) : List Nat → Option (Nat × Nat)
  | [] => none
  | c :: rest =>
    match unhex c with
    | none => some (v, k)
    | some d =>
      let v2 := (16 * v + d) % 2 ^ 64
      if v2 ≤ v then none else parse_hex_loop v2 (k + 1) rest

/-- Embedding of `new_basic_parser_base::parse_hex` at
`Unsigned = std::uint64_t`; the pair is (accumulator, octets consumed). -/
def parse_hex : List Nat → Option (Nat × Nat)
  | [] => none
  | c :: rest =>
    match unhex c with
    | none => none
    | some d => parse_hex_loop d 1 rest

/-- Embedding of `parse_crlf`: on success the iterator moves past the
CR LF pair. -/
def parse_crlf : List Nat → Option (List Nat)
  | 13 :: 10 :: rest => some rest
  | _ => none

/-- Embedding of `parse_version`: the literal `HTTP/`, a digit, a dot and
a digit, encoded as `10*major + minor`. -/
def parse_version : List Nat → Option (Nat × List Nat)
  | 72 :: 84 :: 84 :: 80 :: 47 :: a :: c :: b :: rest =>
    if is_digit a && c == 46 && is_digit b then
      some (10 * (a - 48) + (b - 48), rest)
    else none
  | _ => none

/-- Embedding of `parse_status`: exactly three digits. -/
def parse_status : List Nat → Option (Nat × List Nat)
  | a :: b :: c :: rest =>
    if is_digit a && is_digit b && is_digit c then
      some (100 * (a - 48) + 10 * (b - 48) + (c - 48), rest)
    else none
  | _ => none

/-- Embedding of `parse_reason`: scan `text` octets up to the first CR,
which is left unconsumed.  A non-`text` octet (and, in the embedding,
exhausting the region) yields `none`; note that the C function returns
the same empty `string_ref` in that case as for a reason of length zero,
and the caller cannot tell the two apart. -/
def parse_reason : List Nat → Option (List Nat × List Nat)
  | [] => none
  | c :: rest =>
    if c == 13 then some ([], c :: rest)
    else if is_text c then
      match parse_reason rest with
      | none => none
      | some (r, tail) => some (c :: r, tail)
    else none

/-- Embedding of `parse_as`: scan octets satisfying `f`; the scan must
stop at SP or the result is the empty view (`none` here).  The returned
rest still starts at the SP, exactly as the C function leaves the
iterator there for the caller to increment. -/
def parse_as (f : Nat → Bool) : List Nat → Option (List Nat × List Nat)
  | [] => none
  | c :: rest =>
    if f c then
      match parse_as f rest with
      | none => none
      | some (tok, tail) => some (c :: tok, tail)
    else if c == 32 then some ([], c :: rest)
    else none

/-- First index at which the two-octet pattern CR LF occurs, i.e. the
Boyer-Moore search of `find_crlf`; `none` when the pattern does not occur
(including a corpus shorter than the pattern). -/
def find_crlf_at : List Nat → Option Nat
  | 13 :: 10 :: _ => some 0
  | _ :: rest => (find_crlf_at rest).map (· + 1)
  | [] => none

/-- First index at which CR LF CR LF occurs, i.e. the Boyer-Moore search
of `find_2x_crlf`. -/
def find_2x_at : List Nat → Option Nat
  | 13 :: 10 :: 13 :: 10 :: _ => some 0
  | _ :: rest => (find_2x_at rest).map (· + 1)
  | [] => none

/-- The parser object state: the flag bits of `new_basic_parser` as
booleans, plus `len_` (`std::uint64_t`, initially the maximum),
`skip_` and `x_` (`std::uint32_t`; `x_` is uninitialized in the source
and defaults to 0 here — every read of it in a reachable run is
preceded by a write). -/
structure PS where
  contentLength : Bool := false
  chunked : Bool := false
  upgrade : Bool := false
  header : Bool := false
  done : Bool := false
  expectCRLF : Bool := false
  finalChunk : Bool := false
  skipBody : Bool := false
  len : Nat := 2 ^ 64 - 1
  skip : Nat := 0
  x : Nat := 0
deriving Repr, DecidableEq

/-- The callbacks the parser delivers to its host, in order.  The host
modelled is `new_parser`, whose callbacks never write to the error slot. -/
inductive Event
  | req (method target : List Nat) (version : Nat)
  | res (status : Nat) (reason : List Nat) (version : Nat)
  | field (name value : List Nat)
  | header
  | chunk (size : Nat) (ext : List Nat)
deriving Repr, DecidableEq

/-- The error enumeration of `new_basic_parser.hpp`, plus `oob`, the
embedding's name for a dereference past the end of the supplied view
(undefined behavior in the C source). -/
inductive PErr
  | needMore
  | badMethod
  | badPath
  | badVersion
  | badStatus
  | badReason
  | badField
  | badValue
  | badContentLength
  | badTransferEncoding
  | badChunk
  | shortRead
  | oob
deriving Repr, DecidableEq

/-- Modelled from the spec: `detail::is_tchar` lives in `rfc7230.hpp`,
which is not among the provided sources.  Spec 4.1: token characters are
letters, digits, and the fifteen RFC 7230 punctuation octets
33 35 36 37 38 39 42 43 45 46 94 95 96 124 126. -/
def is_tchar (c : Nat) : Bool :=
  is_digit c || (65 ≤ c && c ≤ 90) || (97 ≤ c && c ≤ 122) ||
    (c == 33 || c == 35 || c == 36 || c == 37 || c == 38 || c == 39 ||
     c == 42 || c == 43 || c == 45 || c == 46 || c == 94 || c == 95 ||
     c == 96 || c == 124 || c == 126)

/-- Modelled from the spec: `detail::to_field_char` (from
`ci_char_traits.hpp`, not among the provided sources) is used only for
its truthiness in `parse_fields`; spec 4.3 says a field name is a
non-empty run of token characters. -/
def to_field_char (c : Nat) : Bool := is_tchar c

/-- ASCII lowercasing of one octet, for case-insensitive comparison. -/
def lowerNat (c : Nat) : Nat := if 65 ≤ c ∧ c ≤ 90 then c + 32 else c

/-- Modelled from the spec: `beast::detail::ci_equal` (not among the
provided sources); spec 4.4 specifies case-insensitive name comparison. -/
def ciEq (a b : List Nat) : Bool :=
  a.map lowerNat == b.map lowerNat

/-- Strip leading and trailing SP/HTAB from a token. -/
def trimOws (l : List Nat) : List Nat :=
  ((l.dropWhile fun c => c == 32 || c == 9).reverse.dropWhile
    fun c => c == 32 || c == 9).reverse

/-- Modelled from the spec: `token_list` (from `rfc7230.hpp`, not among
the provided sources) parses a header value as a comma-separated token
list; empty elements are skipped per the RFC 7230 list rule. -/
def tokenize (v : List Nat) : List (List Nat) :=
  ((v.splitOn 44).map trimOws).filter (· ≠ [])

/-- Embedding of `new_basic_parser::do_field`.  `valSuffix` is the memory
region starting at the first octet of the value: the Content-Length
branch passes `value.begin()` and `value.end()` to `parse_dec`, but
`parse_dec` never reads its `last` argument, so it scans the underlying
buffer from the value start until a non-digit octet; the embedding
reproduces that by scanning `valSuffix`.  In the Transfer-Encoding
branch, when no token compares equal to `chunked`, the C code computes
`std::next` of the list's end iterator (undefined behavior); the
embedding maps the not-found case to the error result, and no theorem
below depends on that branch. -/
def do_field (st : PS) (name value valSuffix : List Nat) :
    Option PErr × PS :=
  if ciEq name (strNats "Content-Length") then
    if st.chunked then (some .badContentLength, st)
    else if st.contentLength then (some .badContentLength, st)
    else
      match parse_dec valSuffix with
      | .ok v => (none, { st with len := v, contentLength := true })
      | _ => (some .badContentLength, st)
  else if ciEq name (strNats "Connection") then (none, st)
  else if ciEq name (strNats "Transfer-Encoding") then
    if st.contentLength then (some .badTransferEncoding, st)
    else if st.chunked then (some .badTransferEncoding, st)
    else
      let toks := tokenize value
      let i := toks.findIdx fun t => ciEq t (strNats "chunked")
      if i + 1 ≠ toks.length then (some .badTransferEncoding, st)
      else (none, { st with chunked := true })
  else if ciEq name (strNats "Upgrade") then (none, st)
  else if ciEq name (strNats "Proxy-Connection") then (none, st)
  else (none, st)

/-- The field-name loop of `parse_fields`: octets are scanned until a
colon; any octet that is neither the colon nor a field character is
`bad_field`; exhausting the view is a dereference past its end. -/
def scan_name : List Nat → Option (List Nat × List Nat)
  | [] => none
  | c :: rest =>
    if c == 58 then some ([], rest)
    else if to_field_char c then
      match scan_name rest with
      | none => none
      | some (tok, tail) => some (c :: tok, tail)
    else none

/-- The OWS skip of `parse_fields`: `while(*it == SP || *it == HTAB) ++it`. -/
def skip_ows : List Nat → List Nat
  | [] => []
  | c :: rest => if c == 32 || c == 9 then skip_ows rest else c :: rest

/-- The field-value loop of `parse_fields`.  `n` counts octets consumed
from the value region, `lastn` is the count just past the last
`field-vchar` seen (the C `last` pointer, which trims trailing OWS).
A CR LF followed by SP or HTAB is obsolete line folding and scanning
continues at that whitespace octet; a CR LF followed by anything else
ends the value, and the rest returned starts at that lookahead octet.
A CR not followed by LF is `bad_field`; a non-value, non-whitespace
octet is `bad_value`. -/
def scan_value (n lastn : Nat) : List Nat → Except PErr (Nat × List Nat)
  | [] => .error .oob
  | 13 :: rest =>
    match rest with
    | [] => .error .oob
    | 10 :: rest2 =>
      (match rest2 with
      | [] => .error .oob
      | c :: rest3 =>
        if c == 32 || c == 9 then scan_value (n + 2) lastn (c :: rest3)
        else .ok (lastn, c :: rest3))
    | _ => .error .badField
  | c :: rest =>
    if is_value_char c then scan_value (n + 1) (n + 1) rest
    else if c == 32 || c == 9 then scan_value (n + 1) lastn rest
    else .error .badValue

/-- One-fuel-per-field embedding of `parse_fields`.  Each iteration of
the C loop consumes at least three octets (a name octet or the colon,
and the value's CR LF), so the fuel `ms.length + 1` used by
`parse_fields` below can never be the reason a run stops.  The result
carries the possibly-mutated parser state (via `do_field`), the
`on_field` events in order, and the rest of the view after the blank
line. -/
def parse_fields_go (st : PS) (ms : List Nat) :
    Nat → Option PErr × PS × List Event × List Nat
  | 0 => (some .oob, st, [], ms)
  | fuel + 1 =>
    match ms with
    | [] => (some .oob, st, [], ms)
    | 13 :: rest =>
      (match rest with
      | 10 :: rest2 => (none, st, [], rest2)
      | [] => (some .oob, st, [], ms)
      | _ => (some .badField, st, [], ms))
    | _ =>
      match scan_name ms with
      | none => (some .badField, st, [], ms)
      | some (name, r1) =>
        let r2 := skip_ows r1
        match scan_value 0 0 r2 with
        | .error e => (some e, st, [], ms)
        | .ok (lastn, r3) =>
          let value := r2.take lastn
          match do_field st name value r2 with
          | (some e, st2) => (some e, st2, [], ms)
          | (none, st2) =>
            match parse_fields_go st2 r3 fuel with
            | (e, st3, evs, r4) => (e, st3, .field name value :: evs, r4)

/-- Embedding of `new_basic_parser::parse_fields`. -/
def parse_fields (st : PS) (ms : List Nat) :
    Option PErr × PS × List Event × List Nat :=
  parse_fields_go st ms (ms.length + 1)

/-- Embedding of `parse_startline` for the request variant
(`std::true_type`): `method SP request-target SP HTTP-version CRLF`. -/
def parse_startline_req (ms : List Nat) : Except PErr (Event × List Nat) :=
  match parse_as is_tchar ms with
  | none => .error .badMethod
  | some (m, r1) =>
    if m = [] then .error .badMethod
    else
      match parse_as is_pathchar (r1.drop 1) with
      | none => .error .badPath
      | some (t, r2) =>
        if t = [] then .error .badPath
        else
          match parse_version (r2.drop 1) with
          | none => .error .badVersion
          | some (v, r3) =>
            match parse_crlf r3 with
            | none => .error .badVersion
            | some r4 => .ok (.req m t v, r4)

/-- Embedding of `parse_startline` for the response variant
(`std::false_type`): `HTTP-version SP status-code SP reason-phrase CRLF`.
Note that the source raises `bad_reason` when `parse_reason` yields an
empty view, which happens both for a non-`text` octet and for a
reason-phrase of length zero. -/
def parse_startline_res (ms : List Nat) : Except PErr (Event × List Nat) :=
  match parse_version ms with
  | none => .error .badVersion
  | some (v, r1) =>
    match r1 with
    | 32 :: r2 =>
      (match parse_status r2 with
      | none => .error .badStatus
      | some (s, r3) =>
        match r3 with
        | 32 :: r4 =>
          (match parse_reason r4 with
          | none => .error .badReason
          | some (reason, r5) =>
            if reason = [] then .error .badReason
            else
              match parse_crlf r5 with
              | none => .error .badReason
              | some r6 => .ok (.res s reason v, r6))
        | _ => .error .badStatus)
    | _ => .error .badVersion

/-- Embedding of `new_basic_parser::parse_header` on a contiguous view.
The result is (error slot, bytes consumed, new state, events delivered).
On finding the terminator the consumed count returned on success is
`term.second - p`, computed before the grammar runs. -/
def parse_header (isReq : Bool) (st : PS) (ms : List Nat) :
    Option PErr × Nat × PS × List Event :=
  let n := ms.length
  if n < 4 then (some .needMore, 0, st, [])
  else
    match find_2x_at (ms.drop st.skip) with
    | none => (some .needMore, 0, { st with skip := n - 3 }, [])
    | some i =>
      let consumed := st.skip + i + 4
      let st1 := { st with skip := 0 }
      match (if isReq then parse_startline_req ms else parse_startline_res ms) with
      | .error e => (some e, 0, st1, [])
      | .ok (ev, r1) =>
        match parse_fields st1 r1 with
        | (some e, st2, evs, _) => (some e, 0, st2, ev :: evs)
        | (none, st2, evs, _) =>
          (none, consumed, { st2 with header := true }, ev :: evs ++ [.header])

/-- The part of `parse_chunked` that runs once the final chunk's size
line has been located (or on re-entry with `flagFinalChunk` already
set): find CR LF CR LF from `first + skip_`, re-parse the hex size when
resuming, emit `on_chunk(0, ext)` when an extension is present, consume
the size line's CR LF, parse the trailer fields, and set `flagDone`.
`p` is the current pointer offset, `n` the byte count the size-line
stage was working with (used only by the `skip_` update on failure). -/
def parse_chunked_final (st : PS) (ms : List Nat) (p n : Nat) :
    Option PErr × Nat × PS × List Event :=
  let n0 := ms.length
  match find_2x_at (ms.drop st.skip) with
  | none =>
    let st2 := if n > 3 then { st with skip := n0 - 3 } else st
    (some .needMore, 0, st2, [])
  | some _ =>
    let p2 :=
      if st.finalChunk then
        match parse_hex (ms.drop p) with
        | some (_, k) => p + k
        | none => p
      else p
    let st2 := { st with finalChunk := true }
    let (evs, p3) :=
      if ms.get? p2 = some 59 then
        ([Event.chunk 0 ((ms.drop p2).take (st2.x - p2))], st2.x)
      else ([], p2)
    match ms.drop p3 with
    | 13 :: 10 :: r2 =>
      (match parse_fields st2 r2 with
      | (some e, st3, evs2, _) => (some e, 0, st3, evs ++ evs2)
      | (none, st3, evs2, rest) =>
        (none, n0 - rest.length, { st3 with done := true }, evs ++ evs2))
    | _ => (some .badChunk, 0, st2, evs)

/-- The chunk-size-line stage of `parse_chunked` (entered when
`flagFinalChunk` is clear): locate the CR LF ending the size line
searching from `p + skip_`, parse the hex size, and either finish a
non-final chunk header (set `len_`, reset `skip_`, set
`flagExpectCRLF`, return the bytes through the CR LF) or record
`x_ = term.first - first` and `skip_ = x_` and fall through to the
final-chunk/trailer stage. -/
def parse_chunked_core (st : PS) (ms : List Nat) (p n : Nat) :
    Option PErr × Nat × PS × List Event :=
  if !st.finalChunk then
    if n < 2 then (some .needMore, 0, st, [])
    else
      match find_crlf_at (ms.drop (p + st.skip)) with
      | none => (some .needMore, 0, { st with skip := n - 1 }, [])
      | some i =>
        let termF := p + st.skip + i
        let termS := termF + 2
        match parse_hex (ms.drop p) with
        | none => (some .badChunk, 0, st, [])
        | some (v, k) =>
          let p2 := p + k
          if v ≠ 0 then
            if ms.get? p2 = some 59 then
              (none, termS,
                { st with len := v, skip := 0, expectCRLF := true },
                [Event.chunk v ((ms.drop p2).take (termF - p2))])
            else if p2 ≠ termF then (some .badChunk, 0, st, [])
            else
              (none, termS,
                { st with len := v, skip := 0, expectCRLF := true }, [])
          else
            parse_chunked_final { st with x := termF, skip := termF } ms p2 n
  else parse_chunked_final st ms p n

/-- Embedding of `new_basic_parser::parse_chunked`.  When
`flagExpectCRLF` is set, the CR LF that terminated the previous chunk's
data is consumed first. -/
def parse_chunked (st : PS) (ms : List Nat) :
    Option PErr × Nat × PS × List Event :=
  let n0 := ms.length
  if st.expectCRLF then
    if n0 < 2 then (some .needMore, 0, st, [])
    else
      match ms with
      | 13 :: 10 :: _ => parse_chunked_core st ms 2 (n0 - 2)
      | _ => (some .badChunk, 0, st, [])
  else parse_chunked_core st ms 0 n0

/-- Embedding of `new_basic_parser::write` for a buffer sequence holding
a single contiguous view (the flattening branch is the identity there,
as in the driver loops of the repository's test, which use a flat
buffer).  Before the header completes, `parse_header` runs; afterwards
`parse_chunked` runs when `flagChunked` is set; otherwise write returns
zero with no error. -/
def write1 (isReq : Bool) (st : PS) (ms : List Nat) :
    Option PErr × Nat × PS × List Event :=
  if !st.header then parse_header isReq st ms
  else if st.chunked then parse_chunked st ms
  else (none, 0, st, [])

/-- Embedding of `new_basic_parser::write_eof`. -/
def write_eof (st : PS) : Option PErr × PS :=
  if st.contentLength || st.chunked then
    if !st.done then (some .shortRead, st) else (none, st)
  else (none, { st with done := true })

/-- The state effect of `new_basic_parser::write_body` when the dynamic
buffer holds `avail` octets: `min(len_, avail)` octets move to the
reader; with `flagContentLength`, `len_` is decremented and `flagDone`
set when it reaches zero; with `flagChunked`, `len_` is decremented
only.  Returns the octets moved and the new state. -/
def write_body_consume (st : PS) (avail : Nat) : Nat × PS :=
  let k := min st.len avail
  if st.contentLength then
    let l2 := st.len - k
    (k, { st with len := l2, done := st.done || decide (l2 = 0) })
  else if st.chunked then (k, { st with len := st.len - k })
  else (k, st)

/-- Embedding of `new_basic_parser::maybe_flatten` over the scratch
buffer `buf` (whose length is `buf_len_`).  For two or more ranges the
code copies `min(buf_len_, total)` octets into the scratch buffer after
reallocating only when `total > buf_len_`, and returns the view
`{buf_, buf_len_}` — the whole scratch buffer, not the `total`-octet
prefix.  The result is (returned view, new scratch buffer). -/
def maybe_flatten (buf : List Nat) (buffers : List (List Nat)) :
    List Nat × List Nat :=
  match buffers with
  | [] => ([], buf)
  | [b] => (b, buf)
  | _ =>
    let len := (buffers.map List.length).sum
    let buf2 :=
      if len > buf.length then buffers.flatten
      else buffers.flatten ++ buf.drop len
    (buf2, buf2)

/-- Outcome of a driver run: the message completed, the driver ran out
of input while the parser still wanted more, or the parser reported a
non-`need_more` error. -/
inductive RunOut
  | finished
  | stuck
  | failed (e : PErr)
deriving Repr, DecidableEq

/-- The direct body-read loop of the repository's `new_read` driver: as
long as `remain()` (which is `len_` under chunked framing) is nonzero,
body octets are read from the stream straight into the reader and
`consume` decrements `len_`; the octets never pass through the dynamic
buffer.  `segs` is the not-yet-delivered remainder of the stream, cut
into the read sizes under test.  Returns the state and stream after the
chunk's body has been drained. -/
def drain (st : PS) : List (List Nat) → PS × List (List Nat)
  | [] => (st, [])
  | s :: rest =>
    if st.len = 0 then (st, s :: rest)
    else
      let t := min st.len s.length
      let st2 := { st with len := st.len - t }
      if t < s.length then (st2, s.drop t :: rest)
      else drain st2 rest

/-- The I/O loop of the repository's `new_read` driver, parametrized by
how the stream is cut into read segments.  `w` is the dynamic buffer
(always contiguous, as with `flat_streambuf`).  Each iteration calls
`write` on the whole buffer; `need_more` appends the next segment; a
successful `write` consumes what it reports, and — in the body phase
only, i.e. when the header was already complete before the call —
`write_body` then moves `min(len_, buffered)` octets to the reader and
the remainder of the chunk is read directly from the stream.  The
result is (outcome, sum of the counts returned by the successful
`write` calls, events in order, final state, final buffer contents). -/
def driver (isReq : Bool) :
    Nat → PS → List Nat → List (List Nat) →
      RunOut × Nat × List Event × PS × List Nat
  | 0, st, w, _ => (.stuck, 0, [], st, w)
  | fuel + 1, st, w, segs =>
    if st.done then (.finished, 0, [], st, w)
    else
      let wasHeader := st.header
      match write1 isReq st w with
      | (some .needMore, _, st2, _) =>
        (match segs with
        | [] => (.stuck, 0, [], st2, w)
        | s :: rest => driver isReq fuel st2 (w ++ s) rest)
      | (some e, _, st2, _) => (.failed e, 0, [], st2, w)
      | (none, n, st2, evs) =>
        let w2 := w.drop n
        if wasHeader then
          let (k, st3) := write_body_consume st2 w2.length
          let w3 := w2.drop k
          let (st4, segs2) := drain st3 segs
          match driver isReq fuel st4 w3 segs2 with
          | (o, c, evs2, st5, w5) => (o, n + c, evs ++ evs2, st5, w5)
        else
          match driver isReq fuel st2 w2 segs with
          | (o, c, evs2, st5, w5) => (o, n + c, evs ++ evs2, st5, w5)

/-- The initial parser state, as constructed. -/
def ps0 : PS := {}

/-- The wire bytes of a valid chunked request: start-line, a
`Transfer-Encoding: chunked` field, the blank line, one one-octet data
chunk, and the final chunk with an empty trailer. -/
def chunkedMsg : List Nat :=
  strNats "PUT / HTTP/1.1\r\nTransfer-Encoding: chunked\r\n\r\n1\r\nZ\r\n0\r\n\r\n"

/-- The callbacks a run over `chunkedMsg` delivers: the request line,
the Transfer-Encoding field, and the header-complete signal. -/
def chunkedMsgEvents : List Event :=
  [.req (strNats "PUT") (strNats "/") 11,
   .field (strNats "Transfer-Encoding") (strNats "chunked"),
   .header]

/-- The parser state after `chunkedMsg` has been parsed to completion
from a single contiguous buffer. -/
def stAfterChunkedMsg : PS :=
  { chunked := true, header := true, done := true, expectCRLF := true,
    finalChunk := true, len := 0, skip := 3, x := 3 }

/-- The parser state in which the byte-by-byte run of `chunkedMsg`
wedges: the size-line search resumed at `p + skip_` with a `skip_`
that had been stored relative to `first`, so `x_` records the wrong
CR LF and the trailer search runs past the end of the message. -/
def stStuckChunkedMsg : PS :=
  { chunked := true, header := true, expectCRLF := true,
    len := 0, skip := 4, x := 5 }

/-- The numeric value of a decimal digit string. -/
def decVal (l : List Nat) : Nat :=
  l.foldl (fun a c => 10 * a + (c - 48)) 0

/-- The guard trace of the decimal accumulator: starting from `v`, every
remaining digit is consumed only while the accumulator is at most
`decGuard` just before the multiply-add. -/
def dec_chain_ok : Nat → List Nat → Bool
  | _, [] => true
  | v, c :: rest => decide (v ≤ decGuard) && dec_chain_ok (10 * v + (c - 48)) rest

/-- The sixteen genuine hexadecimal digit octets (either case). -/
def isHexDigit (c : Nat) : Bool :=
  (48 ≤ c && c ≤ 57) || (65 ≤ c && c ≤ 70) || (97 ≤ c && c ≤ 102)

/-- The value `unhex` assigns to an octet it accepts (for the sixteen
genuine digits this is the usual digit value). -/
def hexVal (c : Nat) : Nat := (unhexTab c % 256).toNat

/-- The shift-and-add trace of the hexadecimal accumulator: starting
from `v`, each digit is folded in mod 2^64 and the run is rejected the
moment a step fails to strictly increase the accumulator. -/
def hex_chain (v : Nat) : List Nat → Option Nat
  | [] => some v
  | c :: rest =>
    let v2 := (16 * v + hexVal c) % 2 ^ 64
    if v2 ≤ v then none else hex_chain v2 rest

/-- The token `chunked` as wire bytes. -/
def chunkedTok : List Nat := strNats "chunked"

/-! ## Theorems -/

/-- C1: the resumability property fails.  The valid chunked message
`chunkedMsg` parses to completion when the driver receives it as one
contiguous segment (the `write` calls consume 56 octets in total, the
one body octet moving through `write_body`), but the same driver fed
the same bytes one octet per read wedges: after the last octet the
buffer holds the complete remainder `CR LF 0 CR LF CR LF`, yet `write`
still answers `need_more`, so the message never completes and the split
run does not succeed, contrary to the claim. -/
theorem chunked_byte_split_diverges :
    driver true 300 ps0 [] [chunkedMsg] =
      (.finished, 56, chunkedMsgEvents, stAfterChunkedMsg, []) ∧
    driver true 300 ps0 [] (chunkedMsg.map fun b => [b]) =
      (.stuck, 49, chunkedMsgEvents, stStuckChunkedMsg,
        strNats "\r\n0\r\n\r\n") := by
  decide

/-- C2: once `done()` is true a further `write` call is not inert.  The
state `stAfterChunkedMsg` is reached by a completed run over
`chunkedMsg`; its `done` flag is set, yet `write` on a further
non-empty buffer re-enters `parse_chunked` (because `flagChunked` is
still set) and reports 7 octets consumed rather than zero. -/
theorem write_after_done_consumes :
    driver true 300 ps0 [] [chunkedMsg] =
      (.finished, 56, chunkedMsgEvents, stAfterChunkedMsg, []) ∧
    stAfterChunkedMsg.done = true ∧
    write1 true stAfterChunkedMsg (strNats "\r\n0\r\n\r\n") =
      (none, 7, stAfterChunkedMsg, []) := by
  decide

/-- C4: a status-line whose reason-phrase is empty is rejected.  The
response start-line parser raises `bad_reason` on
`HTTP/1.1 200 SP CR LF` because `parse_reason` hands back an empty view
both for a non-text octet and for a zero-length reason, and the caller
treats the two alike; with a non-empty reason the same line parses. -/
theorem empty_reason_rejected :
    parse_startline_res (strNats "HTTP/1.1 200 \r\n") =
      .error .badReason ∧
    parse_startline_res (strNats "HTTP/1.1 200 OK\r\n") =
      .ok (.res 200 (strNats "OK") 11, []) :=
  ⟨rfl, rfl⟩

/-- C9: the flattened view is not the concatenation when a larger
scratch buffer is retained.  A first flatten of two ranges totalling
six octets fills the scratch buffer with `ABCDEF`; a second flatten of
two ranges totalling two octets reuses the six-octet buffer and returns
the view `XYCDEF` of length six — four stale octets follow the copied
input, because the source returns `{buf_, buf_len_}` instead of the
`total_size` prefix. -/
theorem maybe_flatten_stale_view :
    maybe_flatten [] [strNats "ABC", strNats "DEF"] =
      (strNats "ABCDEF", strNats "ABCDEF") ∧
    maybe_flatten (strNats "ABCDEF") [strNats "X", strNats "Y"] =
      (strNats "XYCDEF", strNats "XYCDEF") ∧
    strNats "XYCDEF" ≠ strNats "X" ++ strNats "Y" := by
  decide

/-- C5 counterexample: the chunk-size digit string `00` denotes zero,
which fits in 64 bits, and the grammar in the source's own comment
(`last-chunk = 1*("0")`) admits it, yet `parse_hex` rejects it — the
second shift-and-add leaves the accumulator at zero, failing the
strict-increase test — so `parse_chunked` answers `bad_chunk`; a single
`0` is accepted. -/
theorem parse_hex_rejects_double_zero :
    parse_hex (strNats "00" ++ [13]) = none ∧
    parse_hex (strNats "0" ++ [13]) = some (0, 1) ∧
    parse_chunked { header := true, chunked := true } (strNats "00\r\n\r\n") =
      (some .badChunk, 0, { header := true, chunked := true }, []) := by
  decide

/-- C6 counterexample: the decimal value 2^64 - 1 is representable in
an unsigned 64-bit integer, yet `parse_dec` rejects its digit string —
the conservative guard `v > (max - 10) / 10` fires one digit early. -/
theorem parse_dec_rejects_max_uint64 :
    parse_dec (strNats "18446744073709551615" ++ [13]) = .fail ∧
    decVal (strNats "18446744073709551615") = 2 ^ 64 - 1 := by
  decide

/-- C10 counterexample: a region of twenty `9` octets consists entirely
of decimal digits, yet `parse_dec` terminates inside it — the overflow
guard fires at the twentieth digit — without dereferencing at or past
the end of the region, so an all-digit range does not force an
out-of-range dereference. -/
theorem parse_dec_guard_stops_in_range :
    (∀ c ∈ List.replicate 20 57, is_digit c = true) ∧
    parse_dec (List.replicate 20 57) = .fail := by
  decide

/-- C7 counterexample: in `chunked, gzip, chunked` the final token is
`chunked`, so by the claim the field must be accepted, but the source
locates the *first* `chunked` token with `std::find_if` and, seeing a
successor, raises `bad_transfer_encoding`. -/
theorem transfer_encoding_last_chunked_rejected :
    (do_field ps0 (strNats "Transfer-Encoding")
        (strNats "chunked, gzip, chunked") []).1 =
      some .badTransferEncoding ∧
    tokenize (strNats "chunked, gzip, chunked") =
      [chunkedTok, strNats "gzip", chunkedTok] := by
  decide

/-- C3: `write_eof` reports `short_read` exactly in the states where the
header is complete, one of the framing flags is set, and the message is
not yet done; in every other state it reports no error and leaves the
parser with `flagDone` set.  The hypothesis is the framing invariant —
a framing flag implies a completed header — which holds in every state
reachable between calls without an error, because `do_field` runs only
inside the `parse_header` call that either completes the header or
reports the error that latches the parser. -/
theorem write_eof_shortread_iff (st : PS)
    (h : (st.contentLength || st.chunked) = true → st.header = true) :
    ((write_eof st).1 = some .shortRead ↔
      (st.header = true ∧ (st.contentLength || st.chunked) = true ∧
        st.done = false)) ∧
    (¬(st.header = true ∧ (st.contentLength || st.chunked) = true ∧
        st.done = false) →
      (write_eof st).1 = none ∧ (write_eof st).2.done = true) := by
  obtain ⟨cl, ch, up, hd, dn, ex, fc, sk, len, skp, x⟩ := st
  simp only [write_eof] at *
  cases cl <;> cases ch <;> cases dn <;> cases hd <;> simp_all

/-- Witness for C3 at a concrete state: with the header done, chunked
framing on and the message incomplete, `write_eof` reports
`short_read`; on the fresh state it reports nothing and sets done. -/
theorem write_eof_shortread_iff_witness :
    (write_eof { header := true, chunked := true } : Option PErr × PS).1 =
      some .shortRead ∧
    (write_eof ps0).1 = none ∧ (write_eof ps0).2.done = true :=
  ⟨(write_eof_shortread_iff { header := true, chunked := true }
      (by decide)).1.mpr ⟨rfl, rfl, rfl⟩,
   (write_eof_shortread_iff ps0 (by decide)).2 (by decide)⟩

/-- On a region of digits only, the decimal loop never returns `ok`: it
either trips the overflow guard or walks off the region. -/
theorem parse_dec_loop_digits (ms : List Nat)
    (h : ∀ c ∈ ms, is_digit c = true) :
    ∀ v, parse_dec_loop v ms = .fail ∨ parse_dec_loop v ms = .oob := by
  induction ms with
  | nil => intro v; right; rfl
  | cons c rest ih =>
    intro v
    have hc : is_digit c = true := h c (by simp)
    have hrest : ∀ d ∈ rest, is_digit d = true := fun d hd => h d (by simp [hd])
    by_cases hv : v > decGuard
    · left; simp [parse_dec_loop, hc, hv]
    · have := ih hrest (10 * v + (c - 48))
      simpa [parse_dec_loop, hc, hv] using this

/-- C10 (amended): `parse_dec` never consults its `last` parameter (the
embedding does not even take it), so on a range `[it, last)` consisting
entirely of decimal digits it can never stop with a successful parse
inside the range: it either exits through the overflow guard or
dereferences positions at and beyond `last` (outcome `oob`).  The
caller must therefore guarantee a non-digit octet — for Content-Length,
the CR that ends the header line — or arrange for the guard to fire;
termination inside the range does *not* require a non-digit octet,
as the overflow guard can end the loop first. -/
theorem parse_dec_needs_terminator (ms : List Nat)
    (h : ∀ c ∈ ms, is_digit c = true) :
    parse_dec ms = .fail ∨ parse_dec ms = .oob := by
  cases ms with
  | nil => right; rfl
  | cons c rest =>
    have hc : is_digit c = true := h c (by simp)
    have hrest : ∀ d ∈ rest, is_digit d = true := fun d hd => h d (by simp [hd])
    simpa [parse_dec, hc] using parse_dec_loop_digits rest hrest (c - 48)

/-- Witness for C10 at the one-digit region `[53]`: every octet is a
digit, and the run dereferences past the region. -/
theorem parse_dec_needs_terminator_witness :
    parse_dec [53] = .fail ∨ parse_dec [53] = .oob :=
  parse_dec_needs_terminator [53] (by decide)

/-- The decimal loop over a digit string followed by a non-digit octet:
it stops at the terminator with the folded value exactly when the guard
trace accepts, and fails otherwise. -/
theorem parse_dec_loop_spec (t : Nat) (rest : List Nat)
    (ht : is_digit t = false) :
    ∀ (ds : List Nat) (v : Nat), (∀ d ∈ ds, is_digit d = true) →
    parse_dec_loop v (ds ++ t :: rest) =
      if dec_chain_ok v ds then
        .ok (ds.foldl (fun a c => 10 * a + (c - 48)) v)
      else .fail := by
  intro ds
  induction ds with
  | nil => intro v _; simp [parse_dec_loop, ht, dec_chain_ok]
  | cons c ds2 ih =>
    intro v hd
    have hc : is_digit c = true := hd c (by simp)
    by_cases hv : v ≤ decGuard
    · have hng : ¬v > decGuard := by omega
      have hdec : decide (v ≤ decGuard) = true := decide_eq_true hv
      simp only [List.cons_append, parse_dec_loop, hc, hng, dec_chain_ok,
        List.foldl_cons, hdec, Bool.true_and, ite_true, ite_false,
        if_false, if_true]
      exact ih (10 * v + (c - 48)) fun d hdd => hd d (by simp [hdd])
    · have hg : v > decGuard := by omega
      have hdec : decide (v ≤ decGuard) = false := decide_eq_false hv
      simp [parse_dec_loop, hc, hg, dec_chain_ok, hdec]

/-- The decimal fold never falls below its seed. -/
theorem dec_foldl_ge (ds : List Nat) :
    ∀ v : Nat, v ≤ ds.foldl (fun a c => 10 * a + (c - 48)) v := by
  induction ds with
  | nil => intro v; simp
  | cons c ds2 ih =>
    intro v
    calc v ≤ 10 * v + (c - 48) := by omega
    _ ≤ ds2.foldl (fun a c => 10 * a + (c - 48)) (10 * v + (c - 48)) :=
        ih (10 * v + (c - 48))

/-- For a seed already within the reachable range, the guard trace
accepts exactly when the folded value stays at most `10*guard + 9`. -/
theorem dec_chain_ok_iff (ds : List Nat) :
    ∀ v : Nat, (∀ d ∈ ds, is_digit d = true) → v ≤ 10 * decGuard + 9 →
    (dec_chain_ok v ds = true ↔
      ds.foldl (fun a c => 10 * a + (c - 48)) v ≤ 10 * decGuard + 9) := by
  induction ds with
  | nil => intro v _ hv; simpa [dec_chain_ok] using hv
  | cons c ds2 ih =>
    intro v hd hv
    have hc : is_digit c = true := hd c (by simp)
    have hcp : 48 ≤ c ∧ c ≤ 57 := by simpa [is_digit] using hc
    have hc9 : c - 48 ≤ 9 := by omega
    by_cases hvG : v ≤ decGuard
    · have hnext : 10 * v + (c - 48) ≤ 10 * decGuard + 9 := by omega
      have hdec : decide (v ≤ decGuard) = true := decide_eq_true hvG
      simp only [dec_chain_ok, List.foldl_cons, hdec, Bool.true_and]
      exact ih (10 * v + (c - 48)) (fun d hdd => hd d (by simp [hdd])) hnext
    · have hdec : decide (v ≤ decGuard) = false := decide_eq_false hvG
      have hge := dec_foldl_ge ds2 (10 * v + (c - 48))
      have hnb : ¬ds2.foldl (fun a c => 10 * a + (c - 48))
          (10 * v + (c - 48)) ≤ 10 * decGuard + 9 := by omega
      simp [dec_chain_ok, hdec, List.foldl_cons, hnb]

/-- C6 (amended): over a non-empty digit string followed by a non-digit
octet, `parse_dec` at 64 bits succeeds — yielding exactly the string's
numeric value — precisely when that value is at most `2^64 - 7`, and
fails otherwise.  The guard `v > (max-10)/10` is conservative: the six
representable values `2^64 - 6` through `2^64 - 1` are rejected, so a
Content-Length may hold any decimal value up to `2^64 - 7` only. -/
theorem parse_dec_value_bound (c : Nat) (ds : List Nat) (t : Nat)
    (rest : List Nat) (hc : is_digit c = true)
    (hds : ∀ d ∈ ds, is_digit d = true) (ht : is_digit t = false) :
    parse_dec (c :: (ds ++ t :: rest)) =
      if decVal (c :: ds) ≤ 2 ^ 64 - 7 then .ok (decVal (c :: ds))
      else .fail := by
  have hB : 10 * decGuard + 9 = 2 ^ 64 - 7 := by decide
  have hcp : 48 ≤ c ∧ c ≤ 57 := by simpa [is_digit] using hc
  have hc9 : c - 48 ≤ 9 := by omega
  have hfold : ds.foldl (fun a c => 10 * a + (c - 48)) (c - 48) =
      decVal (c :: ds) := by
    simp [decVal]
  have hseed : c - 48 ≤ 10 * decGuard + 9 := by omega
  have hiff := dec_chain_ok_iff ds (c - 48) hds hseed
  rw [hfold, hB] at hiff
  simp only [parse_dec, hc, if_true, ite_true]
  rw [parse_dec_loop_spec t rest ht ds (c - 48) hds]
  by_cases hbnd : decVal (c :: ds) ≤ 2 ^ 64 - 7
  · rw [if_pos hbnd, if_pos (hiff.mpr hbnd), hfold]
  · rw [if_neg hbnd, if_neg]
    intro hcontra
    exact hbnd (hiff.mp hcontra)

/-- Witness for C6 on the digit string `4` followed by CR: the value 52
- 48 = 4 is within the bound and is returned. -/
theorem parse_dec_value_bound_witness :
    is_digit 52 = true ∧ is_digit 13 = false ∧
    parse_dec [52, 13] =
      (if decVal [52] ≤ 2 ^ 64 - 7 then .ok (decVal [52]) else .fail) :=
  ⟨by decide, by decide,
   parse_dec_value_bound 52 [] 13 [] (by decide) (by simp) (by decide)⟩

/-- On a genuine hexadecimal digit, `unhex` succeeds with the table
value. -/
theorem unhex_real (c : Nat) (h : isHexDigit c = true) :
    unhex c = some (hexVal c) := by
  have hcp : (48 ≤ c ∧ c ≤ 57) ∨ (65 ≤ c ∧ c ≤ 70) ∨ (97 ≤ c ∧ c ≤ 102) := by
    simpa [isHexDigit, or_assoc] using h
  have hne : unhexTab c ≠ -1 := by
    unfold unhexTab
    rcases hcp with h1 | h2 | h3
    · rw [if_pos h1]; omega
    · rw [if_neg (by omega), if_pos h2]; omega
    · rw [if_neg (by omega), if_neg (by omega), if_pos h3]; omega
  simp [unhex, hexVal, hne]

/-- The hexadecimal loop over a digit string followed by an octet that
`unhex` rejects: it returns the trace of strictly-increasing wrapped
shift-and-adds, with the count advanced by the number of digits. -/
theorem parse_hex_loop_spec (t : Nat) (rest : List Nat)
    (ht : unhex t = none) :
    ∀ (ds : List Nat) (v k : Nat), (∀ d ∈ ds, isHexDigit d = true) →
    parse_hex_loop v k (ds ++ t :: rest) =
      (hex_chain v ds).map fun w => (w, k + ds.length) := by
  intro ds
  induction ds with
  | nil => intro v k _; simp [parse_hex_loop, ht, hex_chain]
  | cons c ds2 ih =>
    intro v k hd
    have hcu := unhex_real c (hd c (by simp))
    have hrest : ∀ d ∈ ds2, isHexDigit d = true :=
      fun d hdd => hd d (by simp [hdd])
    have hstep : parse_hex_loop v k ((c :: ds2) ++ t :: rest) =
        (if (16 * v + hexVal c) % 2 ^ 64 ≤ v then none
         else parse_hex_loop ((16 * v + hexVal c) % 2 ^ 64) (k + 1)
           (ds2 ++ t :: rest)) := by
      simp only [List.cons_append, parse_hex_loop, hcu]
      rfl
    have hchain : hex_chain v (c :: ds2) =
        (if (16 * v + hexVal c) % 2 ^ 64 ≤ v then none
         else hex_chain ((16 * v + hexVal c) % 2 ^ 64) ds2) := by
      simp only [hex_chain]
    rw [hstep, hchain]
    by_cases hle : (16 * v + hexVal c) % 2 ^ 64 ≤ v
    · rw [if_pos hle, if_pos hle]; rfl
    · rw [if_neg hle, if_neg hle,
        ih ((16 * v + hexVal c) % 2 ^ 64) (k + 1) hrest]
      have harith : k + (c :: ds2).length = (k + 1) + ds2.length := by
        simp only [List.length_cons]; omega
      rw [harith]

/-- A parser state that has completed a chunked header and awaits a
chunk-size line (no pending chunk-data CR LF). -/
def stInChunked : PS := { header := true, chunked := true }

/-- The state `stInChunked` reaches after consuming the final-chunk
bytes `0 CR LF CR LF`. -/
def stZeroChunkDone : PS :=
  { header := true, chunked := true, done := true,
    finalChunk := true, skip := 1, x := 1 }

/-- C5 (amended): over a non-empty string of hexadecimal digits followed
by an octet the table rejects, `parse_hex` succeeds exactly when every
shift-and-add after the first digit strictly increases the 64-bit
accumulator (computed mod 2^64), and then yields that accumulator and
the digit count.  This rejects every string whose value overflows only
when some step fails to increase — a `0` digit folded into a zero
accumulator also fails the test, so the chunk-size line `0` is accepted
as the final chunk while `00` is `bad_chunk`, and some over-64-bit
strings are accepted with a wrapped value. -/
theorem parse_hex_strict_increase (c : Nat) (ds : List Nat) (t : Nat)
    (rest : List Nat) (hc : isHexDigit c = true)
    (hds : ∀ d ∈ ds, isHexDigit d = true) (ht : unhex t = none) :
    parse_hex (c :: (ds ++ t :: rest)) =
      ((hex_chain (hexVal c) ds).map fun w => (w, 1 + ds.length)) ∧
    parse_chunked stInChunked (strNats "0\r\n\r\n") =
      (none, 5, stZeroChunkDone, []) ∧
    parse_chunked stInChunked (strNats "00\r\n\r\n") =
      (some .badChunk, 0, stInChunked, []) := by
  refine ⟨?_, by decide, by decide⟩
  have hcu := unhex_real c hc
  simp only [parse_hex, hcu]
  exact parse_hex_loop_spec t rest ht ds (hexVal c) 1 hds

/-- Witness for C5 on the digit string `10` followed by CR. -/
theorem parse_hex_strict_increase_witness :
    isHexDigit 49 = true ∧ unhex 13 = none ∧
    parse_hex [49, 48, 13] =
      ((hex_chain (hexVal 49) [48]).map fun w => (w, 1 + [48].length)) :=
  ⟨by decide, by decide,
   (parse_hex_strict_increase 49 [48] 13 [] (by decide) (by decide)
     (by decide)).1⟩

/-- When `p` holds somewhere in `l`, the first hit of `p` is the last
element exactly when dropping the prefix on which `p` fails leaves a
single element. -/
theorem findIdx_last_iff {α : Type} (p : α → Bool) :
    ∀ l : List α, l.any p = true →
    (l.findIdx p + 1 = l.length ↔
      (l.dropWhile fun x => !p x).length = 1) := by
  intro l
  induction l with
  | nil => intro h; simp at h
  | cons a l2 ih =>
    intro h
    by_cases hpa : p a = true
    · simp [List.findIdx_cons, List.dropWhile_cons, hpa]
    · have hpa2 : p a = false := by simpa using hpa
      have h2 : l2.any p = true := by simpa [hpa2] using h
      have := ih h2
      simp [List.findIdx_cons, List.dropWhile_cons, hpa2]
      omega

/-- C7 (amended): when the token `chunked` occurs in the value's
comma-separated token list, the Transfer-Encoding branch of `do_field`
raises `bad_transfer_encoding` exactly when a Content-Length or a prior
chunked coding was already recorded, or the *first* occurrence of
`chunked` is not the final token (the source locates the first
occurrence, not the last); when the flags are clear and the first
`chunked` is final, the field is accepted and the Chunked flag set.
Consequently a message carrying both fields errors on whichever is
second: a Content-Length after chunked is `bad_content_length` (third
conjunct), a Transfer-Encoding after Content-Length is
`bad_transfer_encoding` (first conjunct).  When `chunked` does not
occur at all the source increments the token list's end iterator,
which is undefined behavior, so that case is left unstated. -/
theorem transfer_encoding_first_chunked (st : PS) (v vs w ws : List Nat)
    (h : (tokenize v).any (fun tk => ciEq tk chunkedTok) = true) :
    ((do_field st (strNats "Transfer-Encoding") v vs).1 =
        some .badTransferEncoding ↔
      (st.contentLength = true ∨ st.chunked = true ∨
        ((tokenize v).dropWhile fun tk => !ciEq tk chunkedTok).length ≠ 1)) ∧
    (st.contentLength = false → st.chunked = false →
      ((tokenize v).dropWhile fun tk => !ciEq tk chunkedTok).length = 1 →
      do_field st (strNats "Transfer-Encoding") v vs =
        (none, { st with chunked := true })) ∧
    (st.chunked = true →
      do_field st (strNats "Content-Length") w ws =
        (some .badContentLength, st)) := by
  have hTECL : ciEq (strNats "Transfer-Encoding") (strNats "Content-Length") =
      false := by decide
  have hTEConn : ciEq (strNats "Transfer-Encoding") (strNats "Connection") =
      false := by decide
  have hTETE : ciEq (strNats "Transfer-Encoding") (strNats "Transfer-Encoding") =
      true := by decide
  have hCLCL : ciEq (strNats "Content-Length") (strNats "Content-Length") =
      true := by decide
  have hiff := findIdx_last_iff (fun tk => ciEq tk chunkedTok) (tokenize v) h
  simp only [chunkedTok] at hiff
  refine ⟨?_, ?_, ?_⟩
  · by_cases hcl : st.contentLength = true
    · simp [do_field, chunkedTok, hTECL, hTEConn, hTETE, hcl]
    · have hcl2 : st.contentLength = false := by simpa using hcl
      by_cases hch : st.chunked = true
      · simp [do_field, chunkedTok, hTECL, hTEConn, hTETE, hcl2, hch]
      · have hch2 : st.chunked = false := by simpa using hch
        by_cases hidx : (tokenize v).findIdx
            (fun tk => ciEq tk (strNats "chunked")) + 1 = (tokenize v).length
        · have hdw := hiff.mp hidx
          simp [do_field, chunkedTok, hTECL, hTEConn, hTETE, hcl2, hch2, hidx, hdw]
        · have hdw : ((tokenize v).dropWhile fun tk => !ciEq tk (strNats "chunked")).length ≠ 1 :=
            fun hc => hidx (hiff.mpr hc)
          simp [do_field, chunkedTok, hTECL, hTEConn, hTETE, hcl2, hch2, hidx, hdw]
  · intro hcl hch hdw
    have hidx := hiff.mpr hdw
    simp [do_field, chunkedTok, hTECL, hTEConn, hTETE, hcl, hch, hidx]
  · intro hch
    simp [do_field, hCLCL, hch]

/-- Witness for C7: with both flags clear and the single-occurrence
value `gzip, chunked`, whose first `chunked` is final, the field is
accepted and the Chunked flag set. -/
theorem transfer_encoding_first_chunked_witness :
    do_field ps0 (strNats "Transfer-Encoding") (strNats "gzip, chunked") [] =
      (none, { ps0 with chunked := true }) :=
  (transfer_encoding_first_chunked ps0 (strNats "gzip, chunked") [] [] []
    (by decide)).2.1 rfl rfl (by decide)

/-- `do_field` can set framing flags and `len_`, but never touches the
scan-resumption offset. -/
theorem do_field_skip (st : PS) (nm v vs : List Nat) :
    ((do_field st nm v vs).2).skip = st.skip := by
  unfold do_field
  repeat' split
  all_goals try rfl
  all_goals (dsimp only; split <;> rfl)

/-- The field loop never touches the scan-resumption offset either. -/
theorem parse_fields_go_skip (fuel : Nat) :
    ∀ (st : PS) (ms : List Nat),
    ((parse_fields_go st ms fuel).2.1).skip = st.skip := by
  induction fuel with
  | zero => intro st ms; rfl
  | succ f ih =>
    intro st ms
    unfold parse_fields_go
    split
    · rfl
    · split <;> rfl
    · split
      · rfl
      · try dsimp only
        split
        · rfl
        · rename_i lastn r3 hsv
          try dsimp only
          split
          · rename_i e2 st2 hdo
            have h2 := congrArg (fun q => (q.2).skip) hdo
            dsimp only at h2
            rw [do_field_skip] at h2
            simpa using h2.symm
          · rename_i st2 hdo
            have h2 := congrArg (fun q => (q.2).skip) hdo
            dsimp only at h2
            rw [do_field_skip] at h2
            rcases hrec : parse_fields_go st2 r3 f with ⟨e2, st3, evs2, r4⟩
            have h1 := ih st2 r3
            rw [hrec] at h1
            simp only [hrec]
            simpa using h1.trans h2.symm

/-- `parse_fields` preserves `skip_`. -/
theorem parse_fields_skip (st : PS) (ms : List Nat) :
    ((parse_fields st ms).2.1).skip = st.skip :=
  parse_fields_go_skip (ms.length + 1) st ms

/-- C8: `parse_header` on a view of length `n` before the header is
done: below four octets it returns zero with `need_more` and an
untouched state; when CR LF CR LF does not occur at or after offset
`skip` it stores `n - 3` in `skip` and returns zero with `need_more`;
and on finding the terminator at relative index `i` it resets `skip` to
zero (also on the grammar-error paths, which run after the reset), and
whenever the start-line and field parsing succeed it returns exactly
`skip + i + 4` — the count through the end of the terminator — with
the header flag set.  The hypothesis `hs` records the scan discipline
(the stored offset never exceeds the current view), under which the
embedding's saturating drop agrees with the C pointer arithmetic. -/
theorem parse_header_consumed_spec (isReq : Bool) (st : PS) (ms : List Nat)
    (hh : st.header = false) (hs : st.skip ≤ ms.length) :
    (ms.length < 4 → parse_header isReq st ms = (some .needMore, 0, st, [])) ∧
    (4 ≤ ms.length → find_2x_at (ms.drop st.skip) = none →
      parse_header isReq st ms =
        (some .needMore, 0, { st with skip := ms.length - 3 }, [])) ∧
    (∀ i, 4 ≤ ms.length → find_2x_at (ms.drop st.skip) = some i →
      (parse_header isReq st ms).2.2.1.skip = 0 ∧
      ((parse_header isReq st ms).1 = none →
        (parse_header isReq st ms).2.1 = st.skip + i + 4 ∧
        (parse_header isReq st ms).2.2.1.header = true)) := by
  refine ⟨?_, ?_, ?_⟩
  · intro hlt
    simp [parse_header, hlt]
  · intro hge hfind
    have hlt : ¬ms.length < 4 := by omega
    simp [parse_header, hlt, hfind]
  · intro i hge hfind
    have hlt : ¬ms.length < 4 := by omega
    rcases hsl : (if isReq then parse_startline_req ms else parse_startline_res ms)
      with e | ⟨ev, r1⟩
    · refine ⟨?_, ?_⟩ <;> simp [parse_header, hlt, hfind, hsl]
    · rcases hpf : parse_fields { st with skip := 0 } r1 with ⟨oe, st2, evs, r4⟩
      have hskip2 : st2.skip = 0 := by
        have hx := parse_fields_skip { st with skip := 0 } r1
        rw [hpf] at hx
        simpa using hx
      cases oe with
      | some e =>
        refine ⟨?_, ?_⟩ <;> simp [parse_header, hlt, hfind, hsl, hpf, hskip2]
      | none =>
        refine ⟨?_, ?_⟩ <;> simp [parse_header, hlt, hfind, hsl, hpf, hskip2]

/-- Witness for C8 on a concrete request whose header terminator starts
at index 20: the returned state has `skip = 0`, the call consumes
24 = 0 + 20 + 4 octets, and the header flag is set. -/
theorem parse_header_consumed_spec_witness :
    (parse_header true ps0
      (strNats "GET / HTTP/1.1\r\nA: b\r\n\r\nxx")).2.2.1.skip = 0 ∧
    (parse_header true ps0
      (strNats "GET / HTTP/1.1\r\nA: b\r\n\r\nxx")).2.1 = 24 ∧
    (parse_header true ps0
      (strNats "GET / HTTP/1.1\r\nA: b\r\n\r\nxx")).2.2.1.header = true := by
  have S := parse_header_consumed_spec true ps0
    (strNats "GET / HTTP/1.1\r\nA: b\r\n\r\nxx") rfl (by decide)
  have T := S.2.2 20 (by decide) (by decide)
  exact ⟨T.1, (T.2 (by decide)).1, (T.2 (by decide)).2⟩

end NewBasicParser
